import Mathlib

/-!
Shallow embedding of the Git-Account-Manager TypeScript sources.

The account store (`src/utils/config.ts`) keeps a JSON document
`{ accounts: { [name]: GitHubAccount }, defaultAccount: string }`.
A JavaScript object with string keys is modelled as an association list
`List (String × GitHubAccount)` in insertion order; JS guarantees key
uniqueness, which appears below as a `Nodup` hypothesis where a theorem
needs it.  Each store operation is a read-modify-write of the file; an
operation that returns `false` before the `writeJsonSync` call leaves the
file untouched, so every operation is embedded as a function returning
the pair (returned boolean, store contents after the call).
-/

namespace GitAccountManager

/-- Account record `GitHubAccount` from `src/types/index.ts`.  `githubToken` is optional
in the interface; `none` embeds an absent field and `some s` a present
one.  The code only ever tests the field for JS truthiness. -/
structure GitHubAccount where
  githubUsername : String
  gitUsername : String
  gitEmail : String
  sshHostAlias : String
  githubToken : Option String := none
  deriving Repr, DecidableEq

/-- JS truthiness of the optional `githubToken` field: `undefined` and the
empty string are falsy, any other string is truthy. -/
def GitHubAccount.hasToken (a : GitHubAccount) : Bool :=
  match a.githubToken with
  | none => false
  | some s => s ≠ ""

/-- Store record `Config` from `src/types/index.ts`: the accounts object (as an
insertion-ordered association list) and the default account name. -/
structure Config where
  accounts : List (String × GitHubAccount)
  defaultAccount : String
  deriving Repr, DecidableEq

/-- JS truthy membership test `config.accounts[name]`: the key is present
(stored account objects are always truthy in JS). -/
def Config.hasAccount (cfg : Config) (name : String) : Bool :=
  cfg.accounts.any (fun p => p.1 = name)

/-- Lookup `config.accounts[name]` (first binding; JS objects have unique
keys). -/
def Config.findAccount (cfg : Config) (name : String) : Option GitHubAccount :=
  cfg.accounts.lookup name

/-- `Object.keys(config.accounts).length`. -/
def Config.accountCount (cfg : Config) : Nat :=
  cfg.accounts.length

/-- Embedding of `createAccount` (`src/utils/config.ts`, lines 93–118): if the name is
already a key, print an error and return `false` without writing;
otherwise add the entry (`config.accounts[accountName] = accountData`
appends a fresh key in insertion order), make it the default if it is now
the only account, and write. -/
def createAccount (accountName : String) (accountData : GitHubAccount)
    (cfg : Config) : Bool × Config :=
  if cfg.hasAccount accountName then
    (false, cfg)
  else
    let accounts' := cfg.accounts ++ [(accountName, accountData)]
    let default' :=
      if accounts'.length = 1 then accountName else cfg.defaultAccount
    (true, { accounts := accounts', defaultAccount := default' })

/-- Embedding of `deleteAccount` (`src/utils/config.ts`, lines 125–157): fail (return
`false`, no write) when the name is absent, when it is the default
account, or when it is the only account; otherwise `delete
config.accounts[accountName]` and write. -/
def deleteAccount (accountName : String) (cfg : Config) : Bool × Config :=
  if ¬ cfg.hasAccount accountName then
    (false, cfg)
  else if cfg.defaultAccount = accountName then
    (false, cfg)
  else if cfg.accountCount = 1 then
    (false, cfg)
  else
    (true, { cfg with
      accounts := cfg.accounts.filter (fun p => p.1 ≠ accountName) })

/-- Embedding of `setDefaultAccount` (`src/utils/config.ts`, lines 164–184): fail when
the name is absent, otherwise set `defaultAccount` and write. -/
def setDefaultAccount (accountName : String) (cfg : Config) : Bool × Config :=
  if ¬ cfg.hasAccount accountName then
    (false, cfg)
  else
    (true, { cfg with defaultAccount := accountName })

/-- Embedding of `getAccount` (`src/utils/config.ts`, lines 191–203): resolve the name
(`accountName || config.defaultAccount`; the argument is falsy when
omitted or the empty string), then `process.exit(1)` — embedded as
`none` — when the resolved name is not a key. -/
def getAccount (accountName : Option String) (cfg : Config) :
    Option (String × GitHubAccount) :=
  let name :=
    match accountName with
    | none => cfg.defaultAccount
    | some s => if s = "" then cfg.defaultAccount else s
  match cfg.findAccount name with
  | none => none
  | some a => some (name, a)

/-- The store invariant named in the spec: whenever `accounts` is
non-empty, `defaultAccount` references an existing key. -/
def ConfigInvariant (cfg : Config) : Prop :=
  cfg.accounts ≠ [] → cfg.hasAccount cfg.defaultAccount = true

instance (cfg : Config) : Decidable (ConfigInvariant cfg) := by
  unfold ConfigInvariant; infer_instance

/-!
Git adapter (`src/utils/git.ts`).  `parseRepoUrl` matches two JS regexes
against the remote URL:

  SSH form   : `git@([^:]+):([^/]+)\/([^.]+)(\.git)?`   (unanchored)
  HTTPS form : `https:\/\/github\.com\/([^/]+)\/([^.]+)(\.git)?`

Both are searches: the engine tries every start index from the left and
keeps the first one where the whole pattern matches.  Because each
character class excludes its delimiter, a match attempt at a given start
is deterministic: each `[^x]+` group takes exactly the run of characters
up to the next delimiter.  The embedding below reproduces that search.
-/

/-- Repository record `RepoInfo` from `src/types/index.ts`.  The source
field `exists` is a reserved word in Lean and is embedded as
`existsOnRemote`. -/
structure RepoInfo where
  name : String
  owner : String
  fullName : String
  sshUrl : String
  httpsUrl : String
  existsOnRemote : Bool
  deriving Repr, DecidableEq

/-- Match attempt of the SSH regex body at one start position: `l` is the
text following the literal `git@`.  `[^:]+` takes the run up to the first
`:` (non-empty), `[^/]+` the run up to the next `/` (non-empty), and
`[^.]+` the run up to the next `.` or the end (non-empty); `(\.git)?` and
any trailing text are unconstrained. -/
def sshMatchAt (l : List Char) : Option (String × String × String) :=
  let host := l.takeWhile (fun c => c ≠ ':')
  match host, l.dropWhile (fun c => c ≠ ':') with
  | _, [] => none
  | [], _ => none
  | h, _ :: r₁ =>
    let owner := r₁.takeWhile (fun c => c ≠ '/')
    match owner, r₁.dropWhile (fun c => c ≠ '/') with
    | _, [] => none
    | [], _ => none
    | o, _ :: r₂ =>
      let nm := r₂.takeWhile (fun c => c ≠ '.')
      if nm = [] then none else some (String.mk h, String.mk o, String.mk nm)

/-- Left-to-right search for the SSH regex: try a full match at every
position whose text starts with the literal `git@`. -/
def findSshMatch : List Char → Option (String × String × String)
  | [] => none
  | c :: rest =>
    if ['g', 'i', 't', '@'].isPrefixOf (c :: rest) then
      match sshMatchAt (rest.drop 3) with
      | some r => some r
      | none => findSshMatch rest
    else findSshMatch rest

/-- Match attempt of the HTTPS regex body at one start position: `l` is
the text following the literal `https://github.com/`. -/
def httpsMatchAt (l : List Char) : Option (String × String) :=
  let owner := l.takeWhile (fun c => c ≠ '/')
  match owner, l.dropWhile (fun c => c ≠ '/') with
  | _, [] => none
  | [], _ => none
  | o, _ :: r₁ =>
    let nm := r₁.takeWhile (fun c => c ≠ '.')
    if nm = [] then none else some (String.mk o, String.mk nm)

/-- Left-to-right search for the HTTPS regex. -/
def findHttpsMatch : List Char → Option (String × String)
  | [] => none
  | c :: rest =>
    if "https://github.com/".data.isPrefixOf (c :: rest) then
      match httpsMatchAt (rest.drop 18) with
      | some r => some r
      | none => findHttpsMatch rest
    else findHttpsMatch rest

/-- Record construction shared verbatim by the two branches of
`parseRepoUrl`: `fullName` is `owner/name` and the canonical URLs are
built against `github.com`. -/
def mkRepoInfo (owner nm : String) : RepoInfo :=
  { name := nm, owner := owner, fullName := owner ++ "/" ++ nm,
    sshUrl := "git@github.com:" ++ (owner ++ "/" ++ nm) ++ ".git",
    httpsUrl := "https://github.com/" ++ (owner ++ "/" ++ nm) ++ ".git",
    existsOnRemote := true }

/-- Embedding of `parseRepoUrl` (`src/utils/git.ts`, lines 67–101): empty
string (JS falsy) returns null; otherwise the SSH regex is tried first,
then the HTTPS regex; on a match the `RepoInfo` URLs are rebuilt against
`github.com`, discarding the matched host. -/
def parseRepoUrl (url : String) : Option RepoInfo :=
  if url = "" then none
  else
    match findSshMatch url.data with
    | some (_host, owner, nm) => some (mkRepoInfo owner nm)
    | none =>
      match findHttpsMatch url.data with
      | some (owner, nm) => some (mkRepoInfo owner nm)
      | none => none

/-- Outcomes of the external probes available to the repository-existence
checks.  `lsRemoteExit` is the exit code of
`git ls-remote --exit-code <sshUrl> HEAD` (`none` when spawning throws);
`ghViewExit` is the exit code of `gh repo view owner/repo --json name`
(`none` when spawning throws); `httpStatus` is the status an
authenticated HTTP GET of the repository resource would return — the
spec describes such a call, the code never performs one. -/
structure ProbeEnv where
  lsRemoteExit : Option Int
  ghViewExit : Option Int
  httpStatus : Option Nat
  deriving Repr, DecidableEq

/-- Embedding of `checkRepoExists` (`src/utils/git.ts`, lines 283–293):
run `git ls-remote --exit-code` on the SSH URL with `reject: false` and
report existence exactly when the exit code is 0; a spawn failure is
caught and reported as `false`.  The account's `githubToken` is never
consulted. -/
def checkRepoExists (_account : GitHubAccount) (env : ProbeEnv) : Bool :=
  match env.lsRemoteExit with
  | some code => code == 0
  | none => false

/-- Embedding of the `checkRepoExists` variant at `src/utils/git.ts`
lines 626–636: `execa('gh', ['repo', 'view', ...])` resolves only on exit
code 0; any rejection is caught and reported as `false`.  Again the
token is never consulted. -/
def checkRepoExistsGh (_account : GitHubAccount) (env : ProbeEnv) : Bool :=
  match env.ghViewExit with
  | some code => code == 0
  | none => false

/-- Scripted user for `confirmDangerousAction`: the yes/no answer to the
first prompt, and the successive texts typed at the re-type prompt. -/
structure DangerScript where
  firstConfirm : Bool
  typedTexts : List String
  deriving Repr, DecidableEq

/-- Embedding of `confirmDangerousAction` (`src/utils/interactive.ts`,
lines 81–100): a yes/no confirm defaulting to No, returning `false` on
No; on Yes, an input prompt whose validator accepts only the exact
`confirmationText`, so inquirer re-prompts until that string is typed —
embedded as `none` when the script never types it — and the function
then returns `true`. -/
def confirmDangerousAction (confirmationText : String)
    (script : DangerScript) : Option Bool :=
  if ¬ script.firstConfirm then some false
  else if script.typedTexts.contains confirmationText then some true
  else none

/-- Tail of `migrateRepo` (`src/commands/migrateRepo.ts`, lines 107–116):
after a successful push, when `deleteSource` was requested and the
repository pre-existed (`!shouldInit`), gate `deleteGitHubRepo` behind
`confirmDangerousAction` with phrase `DELETE-<repoName>`.  The result is
(source delete invoked?, process exit code); `none` embeds a script
still blocked at the re-type prompt. -/
def migrateDeletePhase (deleteSource shouldInit : Bool) (repoName : String)
    (script : DangerScript) : Option (Bool × Nat) :=
  if deleteSource ∧ ¬ shouldInit then
    match confirmDangerousAction ("DELETE-" ++ repoName) script with
    | some true => some (true, 0)
    | some false => some (false, 0)
    | none => none
  else some (false, 0)

/-- JS falsiness of an optional string parameter: absent (`undefined`)
or the empty string. -/
def jsFalsy : Option String → Bool
  | none => true
  | some s => s = ""

/-- Value of an optional string parameter in a branch where it is truthy. -/
def theString : Option String → String
  | none => ""
  | some s => s

/-- Outcome of the account-resolution phase of `migrateRepo`: either the
process exits with a code before any git/remote mutation, or execution
proceeds to `setGitConfig` with the resolved source and target names. -/
inductive ResolveOutcome where
  | exit (code : Nat)
  | proceed (source target : String)
  deriving Repr, DecidableEq

/-- Embedding of the account-resolution steps of `migrateRepo`
(`src/commands/migrateRepo.ts`, lines 46–67).  Source: prompted via
`selectAccount` when the argument is falsy (exit 1 on an empty account
list), then `getAccount(source)` exits when absent.  Target: only when
the argument is falsy, `selectAccount` is called with the default
account as pre-selection (skipping the prompt when it differs from the
source and exists), and `source === target` exits 1; a target supplied
as an argument is checked against the store by `getAccount` but never
compared with the source. -/
def migrateResolveAccounts (cfg : Config) (srcArg tgtArg : Option String)
    (promptedSource promptedTarget : String) : ResolveOutcome :=
  let source :=
    if jsFalsy srcArg then
      if cfg.accounts = [] then none else some promptedSource
    else some (theString srcArg)
  match source with
  | none => .exit 1
  | some src =>
    match cfg.findAccount src with
    | none => .exit 1
    | some _ =>
      if jsFalsy tgtArg then
        match getAccount none cfg with
        | none => .exit 1
        | some (defName, _) =>
          let hint : Option String :=
            if src = defName then none else some defName
          let target :=
            if cfg.accounts = [] then none
            else
              match hint with
              | some d =>
                if d ≠ "" ∧ cfg.hasAccount d then some d
                else some promptedTarget
              | none => some promptedTarget
          match target with
          | none => .exit 1
          | some tgt =>
            if src = tgt then .exit 1
            else
              match cfg.findAccount tgt with
              | none => .exit 1
              | some _ => .proceed src tgt
      else
        let tgt := theString tgtArg
        match cfg.findAccount tgt with
        | none => .exit 1
        | some _ => .proceed src tgt

/-!
SSH config manager (`src/utils/ssh.ts`).  `parseSshConfig` splits the
config text with the JS regex `\n(?=Host\s+)` — at every newline whose
immediately following text is `Host` plus a whitespace character (the
lookahead is not consumed, and no whitespace may stand between the
newline and `Host`) — then extracts each block's alias with
`^Host\s+(.+?)(?:\n|$)` and `trim()`s it.  `getSshKeyPath` derives the
key filename with `hostAlias.replace('github.com-', '')`, which removes
the first occurrence of the needle anywhere in the alias.
-/

/-- Character class `\s` of the JS regexes, and the character set removed
by `String.prototype.trim`. -/
def jsWhitespace (c : Char) : Bool :=
  c == ' ' || c == '\t' || c == '\n' || c == '\r' || c == '\x0b' ||
  c == '\x0c' || c == ' ' || c == ' ' ||
  (0x2000 ≤ c.toNat && c.toNat ≤ 0x200a) ||
  c == ' ' || c == ' ' || c == ' ' || c == ' ' ||
  c == '　' || c == '﻿'

/-- JS `String.prototype.trim` over a character list. -/
def jsTrim (l : List Char) : String :=
  String.mk (((l.dropWhile jsWhitespace).reverse.dropWhile jsWhitespace).reverse)

/-- Lookahead `(?=Host\s+)` of the split regex: the text starts with the
literal `Host` followed by at least one whitespace character. -/
def isHostStart (l : List Char) : Bool :=
  match l with
  | 'H' :: 'o' :: 's' :: 't' :: c :: _ => jsWhitespace c
  | _ => false

/-- JS `config.split(/\n(?=Host\s+)/)`: cut before every position that
satisfies the lookahead and is preceded by a newline; the separating
newline is consumed, the lookahead text is kept.  `"".split` on a
non-trivial separator yields `[""]`, hence the base case. -/
def splitHostBlocks : List Char → List (List Char)
  | [] => [[]]
  | c :: rest =>
    if c = '\n' ∧ isHostStart rest then [] :: splitHostBlocks rest
    else
      match splitHostBlocks rest with
      | b :: bs => (c :: b) :: bs
      | [] => [[c]]

/-- Alias extraction `block.match(/^Host\s+(.+?)(?:\n|$)/)` followed by
`trim()`.  With text after the `Host` literal, the backtracking engine
settles on: the maximal whitespace run, then the run of non-newline
characters up to the next newline or the end (the lazy group is forced
to that run because `.` cannot cross a newline).  When everything after
`Host` is whitespace it instead captures trailing non-newline whitespace
— possible exactly when some position at offset ≥ 1 holds a non-newline
character — and the capture trims to the empty alias. -/
def hostAlias (block : List Char) : Option String :=
  match block with
  | 'H' :: 'o' :: 's' :: 't' :: rest =>
    let w := rest.takeWhile jsWhitespace
    let after := rest.dropWhile jsWhitespace
    if w = [] then none
    else if after = [] then
      if (rest.drop 1).any (fun c => c ≠ '\n') then some "" else none
    else some (jsTrim (after.takeWhile (fun c => c ≠ '\n')))
  | _ => none

/-- Rejoining of split blocks: the split consumed exactly one `\n`
between adjacent blocks, so interposing `\n` reconstructs the text. -/
def joinBlocks : List (List Char) → List Char
  | [] => []
  | [b] => b
  | b :: bs => b ++ '\n' :: joinBlocks bs

/-- JS object assignment `hosts[hostName] = block`: overwrite in place
when the key exists, otherwise append in insertion order. -/
def setKey (m : List (String × String)) (k v : String) :
    List (String × String) :=
  if m.any (fun p => p.1 = k) then
    m.map (fun p => if p.1 = k then (k, v) else p)
  else m ++ [(k, v)]

/-- Embedding of `parseSshConfig` (`src/utils/ssh.ts`, lines 33–50):
empty input returns the empty map; otherwise split into blocks, and for
each block whose alias regex matches, store alias ↦ raw block text. -/
def parseSshConfig (config : String) : List (String × String) :=
  if config = "" then []
  else
    (splitHostBlocks config.data).foldl
      (fun m block =>
        match hostAlias block with
        | some k => setKey m k (String.mk block)
        | none => m) []

/-- Modelled from the spec (§4.2) for comparison with the code: the
claim's block boundary is "a newline followed by optional whitespace
then `Host` and whitespace", so the lookahead here skips leading
whitespace before requiring the `Host` literal. -/
def isHostStartSpec (l : List Char) : Bool :=
  isHostStart (l.dropWhile jsWhitespace)

/-- Modelled from the spec (§4.2): splitting at the claim's boundaries
(under which an indented `Host` line also starts a block). -/
def splitHostBlocksSpec : List Char → List (List Char)
  | [] => [[]]
  | c :: rest =>
    if c = '\n' ∧ isHostStartSpec rest then [] :: splitHostBlocksSpec rest
    else
      match splitHostBlocksSpec rest with
      | b :: bs => (c :: b) :: bs
      | [] => [[c]]

/-- Modelled from the spec (§4.2): the claim's mapping, whose keys are
the aliases on the `Host` lines of the spec-split blocks (leading
whitespace of a block skipped before alias extraction). -/
def parseHostBlocksSpec (config : String) : List (String × String) :=
  if config = "" then []
  else
    (splitHostBlocksSpec config.data).foldl
      (fun m block =>
        match hostAlias (block.dropWhile jsWhitespace) with
        | some k => setKey m k (String.mk block)
        | none => m) []

/-- JS `String.prototype.replace` with a plain-string pattern and empty
replacement: remove the first (leftmost) occurrence of `needle`,
anywhere in the string; no occurrence leaves the string unchanged. -/
def removeFirst (needle : List Char) : List Char → List Char
  | [] => []
  | c :: rest =>
    if needle.isPrefixOf (c :: rest) then (c :: rest).drop needle.length
    else c :: removeFirst needle rest

/-- Substring occurrence test used to state when `removeFirst` is the
identity. -/
def hasSubstr (needle : List Char) : List Char → Bool
  | [] => needle.isEmpty
  | c :: rest => needle.isPrefixOf (c :: rest) || hasSubstr needle rest

/-- Embedding of `getSshKeyPath` (`src/utils/ssh.ts`, lines 68–71):
`path.join(os.homedir(), '.ssh', 'id_rsa_' + keyName)` with
`keyName = hostAlias.replace('github.com-', '')`; `path.join` over these
plain segments is `/`-separated concatenation, and the home directory is
passed in explicitly. -/
def getSshKeyPath (home : String) (hostAlias : String) : String :=
  let keyName := String.mk (removeFirst "github.com-".data hostAlias.data)
  home ++ "/.ssh/" ++ ("id_rsa_" ++ keyName)

/-!
Theorems.
-/

theorem lookup_cons_pair (k pk : String) (pv : GitHubAccount)
    (t : List (String × GitHubAccount)) :
    ((pk, pv) :: t).lookup k = if k = pk then some pv else t.lookup k := by
  by_cases h : k = pk
  · subst h
    simp [List.lookup]
  · simp [List.lookup, beq_false_of_ne h, h]

theorem lookup_filter_self (l : List (String × GitHubAccount))
    (name : String) :
    (l.filter (fun p => p.1 ≠ name)).lookup name = none := by
  induction l with
  | nil => rfl
  | cons p t ih =>
    obtain ⟨pk, pv⟩ := p
    rw [List.filter_cons]
    by_cases hp : pk = name
    · rw [if_neg (by simp [hp])]
      exact ih
    · rw [if_pos (by simpa using hp), lookup_cons_pair,
        if_neg (fun h => hp h.symm)]
      exact ih

theorem lookup_filter_ne (l : List (String × GitHubAccount))
    (name k : String) (hk : k ≠ name) :
    (l.filter (fun p => p.1 ≠ name)).lookup k = l.lookup k := by
  induction l with
  | nil => rfl
  | cons p t ih =>
    obtain ⟨pk, pv⟩ := p
    rw [List.filter_cons, lookup_cons_pair]
    by_cases hp : pk = name
    · rw [if_neg (by simp [hp]), if_neg (by rw [hp]; exact hk)]
      exact ih
    · rw [if_pos (by simpa using hp), lookup_cons_pair]
      by_cases hkp : k = pk
      · rw [if_pos hkp, if_pos hkp]
      · rw [if_neg hkp, if_neg hkp]
        exact ih

/-- C1: for every store state, `deleteAccount name` fails and leaves the
store unmodified when `name` equals `defaultAccount` or when `name` is
the only key in `accounts`; for every other existing `name` it removes
exactly that key, changes no other account entry, and leaves
`defaultAccount` unchanged. -/
theorem claim1_deleteAccount_correct (cfg : Config) (name : String) :
    (name = cfg.defaultAccount ∨
        (cfg.hasAccount name = true ∧ cfg.accountCount = 1) →
      deleteAccount name cfg = (false, cfg)) ∧
    (cfg.hasAccount name = true → name ≠ cfg.defaultAccount →
        cfg.accountCount ≠ 1 →
      (deleteAccount name cfg).1 = true ∧
      ((deleteAccount name cfg).2).findAccount name = none ∧
      (∀ k, k ≠ name →
        ((deleteAccount name cfg).2).findAccount k = cfg.findAccount k) ∧
      ((deleteAccount name cfg).2).defaultAccount = cfg.defaultAccount) := by
  constructor
  · rintro (h | ⟨hmem, hone⟩)
    · by_cases hmem : cfg.hasAccount name = true
      · simp [deleteAccount, hmem, h.symm]
      · simp [deleteAccount, hmem]
    · by_cases hd : cfg.defaultAccount = name
      · simp [deleteAccount, hmem, hd, hone]
      · simp [deleteAccount, hmem, hd, hone]
  · intro hmem hne hcount
    have hd : ¬ cfg.defaultAccount = name := fun h => hne h.symm
    have heq : deleteAccount name cfg =
        (true, { cfg with
          accounts := cfg.accounts.filter (fun p => p.1 ≠ name) }) := by
      simp [deleteAccount, hmem, hd, hcount]
    rw [heq]
    exact ⟨rfl, lookup_filter_self cfg.accounts name,
      fun k hk => lookup_filter_ne cfg.accounts name k hk, rfl⟩

/-- Witness for C1 at a concrete two-account store. -/
theorem claim1_deleteAccount_correct_witness :
    (deleteAccount "work"
      { accounts :=
          [("personal", ⟨"pu", "pn", "pe", "github.com-personal", none⟩),
           ("work", ⟨"wu", "wn", "we", "github.com-work", none⟩)],
        defaultAccount := "personal" }).1 = true ∧
    ((deleteAccount "work"
      { accounts :=
          [("personal", ⟨"pu", "pn", "pe", "github.com-personal", none⟩),
           ("work", ⟨"wu", "wn", "we", "github.com-work", none⟩)],
        defaultAccount := "personal" }).2).findAccount "work" = none ∧
    ((deleteAccount "work"
      { accounts :=
          [("personal", ⟨"pu", "pn", "pe", "github.com-personal", none⟩),
           ("work", ⟨"wu", "wn", "we", "github.com-work", none⟩)],
        defaultAccount := "personal" }).2).defaultAccount = "personal" := by
  have h := (claim1_deleteAccount_correct
    { accounts :=
        [("personal", ⟨"pu", "pn", "pe", "github.com-personal", none⟩),
         ("work", ⟨"wu", "wn", "we", "github.com-work", none⟩)],
      defaultAccount := "personal" } "work").2
    (by decide) (by decide) (by decide)
  exact ⟨h.1, h.2.1, h.2.2.2⟩

/-- C2: the predicate "`defaultAccount` is a key of `accounts` whenever
`accounts` is non-empty" is preserved by every successful
`createAccount`, `deleteAccount`, and `setDefaultAccount`. -/
theorem claim2_store_invariant_preserved (cfg : Config)
    (hinv : ConfigInvariant cfg) :
    (∀ name data cfg₂, createAccount name data cfg = (true, cfg₂) →
      ConfigInvariant cfg₂) ∧
    (∀ name cfg₂, deleteAccount name cfg = (true, cfg₂) →
      ConfigInvariant cfg₂) ∧
    (∀ name cfg₂, setDefaultAccount name cfg = (true, cfg₂) →
      ConfigInvariant cfg₂) := by
  refine ⟨?_, ?_, ?_⟩
  · intro name data cfg₂ h
    by_cases hmem : cfg.hasAccount name = true
    · simp [createAccount, hmem] at h
    · have heq : createAccount name data cfg =
          (true, { accounts := cfg.accounts ++ [(name, data)],
                   defaultAccount :=
                     if (cfg.accounts ++ [(name, data)]).length = 1
                     then name else cfg.defaultAccount }) := by
        simp [createAccount, hmem]
      rw [heq, Prod.mk.injEq] at h
      obtain ⟨-, rfl⟩ := h
      intro _
      by_cases hlen : (cfg.accounts ++ [(name, data)]).length = 1
      · rw [Config.hasAccount]
        simp [hlen, List.any_append]
      · have hne : cfg.accounts ≠ [] := by
          intro he; exact hlen (by simp [he])
        have hd := hinv hne
        rw [Config.hasAccount] at hd ⊢
        simp only [hlen, if_false, List.any_append]
        simp [hd]
  · intro name cfg₂ h
    by_cases hmem : cfg.hasAccount name = true
    · by_cases hd : cfg.defaultAccount = name
      · simp [deleteAccount, hmem, hd] at h
      · by_cases hc : cfg.accountCount = 1
        · simp [deleteAccount, hmem, hd, hc] at h
        · have heq : deleteAccount name cfg =
              (true, { cfg with
                accounts := cfg.accounts.filter (fun p => p.1 ≠ name) }) := by
            simp [deleteAccount, hmem, hd, hc]
          rw [heq] at h
          have hcfg : ({ cfg with
              accounts := cfg.accounts.filter (fun p => p.1 ≠ name) } :
                Config) = cfg₂ := congrArg Prod.snd h
          subst hcfg
          intro _
          have hne : cfg.accounts ≠ [] := by
            intro he
            rw [Config.hasAccount, he] at hmem
            simp at hmem
          have hdft := hinv hne
          rw [Config.hasAccount, List.any_eq_true] at hdft
          obtain ⟨p, hp, hpk⟩ := hdft
          show Config.hasAccount _ _ = true
          rw [Config.hasAccount, List.any_eq_true]
          refine ⟨p, ?_, hpk⟩
          show p ∈ cfg.accounts.filter (fun q => q.1 ≠ name)
          refine List.mem_filter.mpr ⟨hp, ?_⟩
          have hpk' : p.1 = cfg.defaultAccount := by simpa using hpk
          simp only [decide_eq_true_eq]
          rw [hpk']
          exact hd
    · simp [deleteAccount, hmem] at h
  · intro name cfg₂ h
    by_cases hmem : cfg.hasAccount name = true
    · have heq : setDefaultAccount name cfg =
          (true, { cfg with defaultAccount := name }) := by
        simp [setDefaultAccount, hmem]
      rw [heq] at h
      have hcfg : ({ cfg with defaultAccount := name } : Config) = cfg₂ :=
        congrArg Prod.snd h
      subst hcfg
      intro _
      exact hmem
    · simp [setDefaultAccount, hmem] at h

/-- Witness for C2: creating the first account into an empty store
yields a state satisfying the invariant. -/
theorem claim2_store_invariant_preserved_witness :
    ConfigInvariant
      { accounts := [("a", ⟨"u", "n", "e", "h", none⟩)],
        defaultAccount := "a" } :=
  (claim2_store_invariant_preserved
      { accounts := [], defaultAccount := "x" } (by decide)).1
    "a" ⟨"u", "n", "e", "h", none⟩
    { accounts := [("a", ⟨"u", "n", "e", "h", none⟩)],
      defaultAccount := "a" } (by decide)

/-- C4: `createAccount` fails without writing when the name is already a
key; on success it adds exactly that entry, and the new account becomes
the default exactly when the store was empty before the call. -/
theorem claim4_createAccount_correct (cfg : Config) (name : String)
    (data : GitHubAccount) :
    (cfg.hasAccount name = true → createAccount name data cfg = (false, cfg)) ∧
    (cfg.hasAccount name = false →
      (createAccount name data cfg).1 = true ∧
      (createAccount name data cfg).2.accounts =
        cfg.accounts ++ [(name, data)] ∧
      (createAccount name data cfg).2.defaultAccount =
        (if cfg.accounts = [] then name else cfg.defaultAccount)) := by
  constructor
  · intro h
    simp [createAccount, h]
  · intro h
    have heq : createAccount name data cfg =
        (true, { accounts := cfg.accounts ++ [(name, data)],
                 defaultAccount :=
                   if (cfg.accounts ++ [(name, data)]).length = 1
                   then name else cfg.defaultAccount }) := by
      simp [createAccount, h]
    rw [heq]
    refine ⟨rfl, rfl, ?_⟩
    by_cases he : cfg.accounts = []
    · rw [if_pos he, if_pos (by simp [he])]
    · rw [if_neg he, if_neg (by simp [he])]

/-- Witness for C4 at a concrete store. -/
theorem claim4_createAccount_correct_witness :
    (createAccount "b" ⟨"bu", "bn", "be", "hb", none⟩
      { accounts := [("a", ⟨"u", "n", "e", "h", none⟩)],
        defaultAccount := "a" }).1 = true ∧
    (createAccount "b" ⟨"bu", "bn", "be", "hb", none⟩
      { accounts := [("a", ⟨"u", "n", "e", "h", none⟩)],
        defaultAccount := "a" }).2.defaultAccount = "a" := by
  have h := (claim4_createAccount_correct
    { accounts := [("a", ⟨"u", "n", "e", "h", none⟩)],
      defaultAccount := "a" } "b" ⟨"bu", "bn", "be", "hb", none⟩).2
    (by decide)
  exact ⟨h.1, h.2.2.trans (by decide)⟩

/-- C10: `getAccount` with the empty string behaves identically to
`getAccount` with the name omitted: both resolve to `defaultAccount`,
return that account's data when present, and fail exactly when the
resolved name is not a key. -/
theorem claim10_getAccount_falsy (cfg : Config) :
    getAccount (some "") cfg = getAccount none cfg ∧
    (∀ a, cfg.findAccount cfg.defaultAccount = some a →
      getAccount (some "") cfg = some (cfg.defaultAccount, a)) ∧
    (getAccount none cfg = none ↔
      cfg.findAccount cfg.defaultAccount = none) := by
  refine ⟨rfl, ?_, ?_⟩
  · intro a ha
    simp [getAccount, ha]
  · cases h : cfg.findAccount cfg.defaultAccount <;> simp [getAccount, h]

/-- Witness for C10 at a concrete store whose default account exists. -/
theorem claim10_getAccount_falsy_witness :
    getAccount (some "")
      { accounts := [("a", ⟨"u", "n", "e", "h", none⟩)],
        defaultAccount := "a" } =
      some ("a", ⟨"u", "n", "e", "h", none⟩) :=
  (claim10_getAccount_falsy
    { accounts := [("a", ⟨"u", "n", "e", "h", none⟩)],
      defaultAccount := "a" }).2.1 ⟨"u", "n", "e", "h", none⟩ (by decide)

/-- C3: `parseRepoUrl` maps both `git@github.com-work:alice/repo.git`
and `https://github.com/alice/repo.git` to owner `alice`, name `repo`,
fullName `alice/repo`; every successful parse builds `sshUrl` and
`httpsUrl` against `github.com` regardless of the original host; and
`not-a-url` parses to null. -/
theorem claim3_parseRepoUrl_correct :
    parseRepoUrl "git@github.com-work:alice/repo.git" =
      some { name := "repo", owner := "alice", fullName := "alice/repo",
             sshUrl := "git@github.com:alice/repo.git",
             httpsUrl := "https://github.com/alice/repo.git",
             existsOnRemote := true } ∧
    parseRepoUrl "https://github.com/alice/repo.git" =
      some { name := "repo", owner := "alice", fullName := "alice/repo",
             sshUrl := "git@github.com:alice/repo.git",
             httpsUrl := "https://github.com/alice/repo.git",
             existsOnRemote := true } ∧
    parseRepoUrl "not-a-url" = none ∧
    ∀ url r, parseRepoUrl url = some r →
      r.fullName = r.owner ++ "/" ++ r.name ∧
      r.sshUrl = "git@github.com:" ++ r.fullName ++ ".git" ∧
      r.httpsUrl = "https://github.com/" ++ r.fullName ++ ".git" := by
  refine ⟨by decide, by decide, by decide, ?_⟩
  intro url r hr
  rw [parseRepoUrl] at hr
  by_cases hu : url = ""
  · rw [if_pos hu] at hr
    exact absurd hr (by simp)
  · rw [if_neg hu] at hr
    cases hssh : findSshMatch url.data with
    | some t =>
      obtain ⟨host, owner, nm⟩ := t
      rw [hssh] at hr
      have : mkRepoInfo owner nm = r := Option.some.inj hr
      subst this
      exact ⟨rfl, rfl, rfl⟩
    | none =>
      rw [hssh] at hr
      cases hh : findHttpsMatch url.data with
      | some t =>
        obtain ⟨owner, nm⟩ := t
        rw [hh] at hr
        have : mkRepoInfo owner nm = r := Option.some.inj hr
        subst this
        exact ⟨rfl, rfl, rfl⟩
      | none =>
        rw [hh] at hr
        exact absurd hr (by simp)

/-- Witness for C3's universal part at a concrete SSH-alias URL. -/
theorem claim3_parseRepoUrl_correct_witness :
    ({ name := "repo", owner := "alice", fullName := "alice/repo",
       sshUrl := "git@github.com:alice/repo.git",
       httpsUrl := "https://github.com/alice/repo.git",
       existsOnRemote := true } : RepoInfo).sshUrl =
      "git@github.com:" ++ "alice/repo" ++ ".git" ∧
    ({ name := "repo", owner := "alice", fullName := "alice/repo",
       sshUrl := "git@github.com:alice/repo.git",
       httpsUrl := "https://github.com/alice/repo.git",
       existsOnRemote := true } : RepoInfo).httpsUrl =
      "https://github.com/" ++ "alice/repo" ++ ".git" := by
  have h := claim3_parseRepoUrl_correct.2.2.2
    "git@github.com-work:alice/repo.git"
    { name := "repo", owner := "alice", fullName := "alice/repo",
      sshUrl := "git@github.com:alice/repo.git",
      httpsUrl := "https://github.com/alice/repo.git",
      existsOnRemote := true } (by decide)
  exact ⟨h.2.1, h.2.2⟩

/-- C5 counterexample: the claim says that with `githubToken` set the
existence check answers via an authenticated HTTP GET, true exactly on
status 200; but `checkRepoExists` never consults the token or any HTTP
status — with a token set and a (hypothetical) 200 available it still
answers `false` when the SSH probe exits non-zero. -/
theorem claim5_checkRepoExists_counterexample :
    GitHubAccount.hasToken
      ⟨"alice", "a", "e", "github.com-a", some "tok"⟩ = true ∧
    (⟨some 2, some 1, some 200⟩ : ProbeEnv).httpStatus = some 200 ∧
    checkRepoExists ⟨"alice", "a", "e", "github.com-a", some "tok"⟩
      ⟨some 2, some 1, some 200⟩ = false := by
  decide

/-- C5 amended: for every token state and every simulated probe outcome,
the existence checks ignore `githubToken` and answer from the external
probe alone — `true` exactly when the probe exited 0 — returning a
boolean and never raising (spawn failure included). -/
theorem claim5_checkRepoExists_amended (account : GitHubAccount)
    (env : ProbeEnv) :
    checkRepoExists account env = (env.lsRemoteExit == some 0) ∧
    checkRepoExistsGh account env = (env.ghViewExit == some 0) := by
  constructor
  · rw [checkRepoExists]
    cases env.lsRemoteExit <;> rfl
  · rw [checkRepoExistsGh]
    cases env.ghViewExit <;> rfl

/-- C6: in the migrate tail with `deleteSource` on a pre-existing
repository, the source delete runs only when the two-stage confirmation
succeeded (a yes answer and the exact text `DELETE-<repoName>` typed);
whenever the confirmation returns `false` the delete is skipped and the
command exits zero. -/
theorem claim6_migrate_delete_gating (deleteSource shouldInit : Bool)
    (repoName : String) (script : DangerScript) (deleted : Bool)
    (code : Nat)
    (h : migrateDeletePhase deleteSource shouldInit repoName script =
      some (deleted, code)) :
    (deleted = true → script.firstConfirm = true ∧
      script.typedTexts.contains ("DELETE-" ++ repoName) = true) ∧
    (confirmDangerousAction ("DELETE-" ++ repoName) script = some false →
      deleted = false ∧ code = 0) := by
  rw [migrateDeletePhase] at h
  by_cases hgate : deleteSource = true ∧ ¬ shouldInit = true
  · rw [if_pos hgate] at h
    by_cases hf : script.firstConfirm = true
    · by_cases ht :
          script.typedTexts.contains ("DELETE-" ++ repoName) = true
      · have hcd : confirmDangerousAction ("DELETE-" ++ repoName) script =
            some true := by
          rw [confirmDangerousAction, if_neg (by simp [hf]), if_pos ht]
        rw [hcd] at h
        obtain ⟨hd, hc⟩ := Prod.mk.injEq .. ▸ Option.some.inj h
        constructor
        · exact fun _ => ⟨hf, ht⟩
        · intro hfalse
          rw [hcd] at hfalse
          exact absurd (Option.some.inj hfalse) (by simp)
      · have hcd : confirmDangerousAction ("DELETE-" ++ repoName) script =
            none := by
          rw [confirmDangerousAction, if_neg (by simp [hf]), if_neg ht]
        rw [hcd] at h
        exact absurd h (by simp)
    · have hcd : confirmDangerousAction ("DELETE-" ++ repoName) script =
          some false := by
        rw [confirmDangerousAction, if_pos (by simp [hf])]
      rw [hcd] at h
      obtain ⟨hd, hc⟩ := Prod.mk.injEq .. ▸ Option.some.inj h
      constructor
      · intro htrue
        rw [← hd] at htrue
        exact absurd htrue (by simp)
      · exact fun _ => ⟨hd.symm, hc.symm⟩
  · rw [if_neg hgate] at h
    obtain ⟨hd, hc⟩ := Prod.mk.injEq .. ▸ Option.some.inj h
    constructor
    · intro htrue
      rw [← hd] at htrue
      exact absurd htrue (by simp)
    · exact fun _ => ⟨hd.symm, hc.symm⟩

/-- Witness for C6: a script that answers yes and types the exact phrase
leads to the delete, and the theorem recovers both confirmation facts. -/
theorem claim6_migrate_delete_gating_witness :
    migrateDeletePhase true false "demo"
      ⟨true, ["DELETE-demo"]⟩ = some (true, 0) ∧
    (⟨true, ["DELETE-demo"]⟩ : DangerScript).firstConfirm = true ∧
    (⟨true, ["DELETE-demo"]⟩ : DangerScript).typedTexts.contains
      ("DELETE-" ++ "demo") = true :=
  ⟨by decide,
   (claim6_migrate_delete_gating true false "demo" ⟨true, ["DELETE-demo"]⟩
      true 0 (by decide)).1 rfl⟩

/-- C7 counterexample: when both account names are supplied as arguments
and are equal, `migrateRepo` never compares them — the resolution phase
proceeds to the git-mutating steps with source = target instead of
failing. -/
theorem claim7_migrate_reject_counterexample :
    migrateResolveAccounts
      { accounts :=
          [("personal", ⟨"pu", "pn", "pe", "github.com-personal", none⟩),
           ("work", ⟨"wu", "wn", "we", "github.com-work", none⟩)],
        defaultAccount := "personal" }
      (some "work") (some "work") "p" "q" =
      ResolveOutcome.proceed "work" "work" := by
  decide

/-- C7 amended: the `source == target` rejection happens only on the
prompted-target path — whenever the target account argument is falsy
(omitted or empty), a run that proceeds past resolution has distinct
source and target names. -/
theorem claim7_migrate_reject_amended (cfg : Config)
    (srcArg tgtArg : Option String) (promptedSource promptedTarget : String)
    (s t : String) (hfalsy : jsFalsy tgtArg = true)
    (h : migrateResolveAccounts cfg srcArg tgtArg promptedSource
      promptedTarget = ResolveOutcome.proceed s t) :
    s ≠ t := by
  rw [migrateResolveAccounts] at h
  simp only [hfalsy, if_true] at h
  split at h
  · exact absurd h (by simp)
  · split at h
    · exact absurd h (by simp)
    · split at h
      · exact absurd h (by simp)
      · split at h
        · exact absurd h (by simp)
        · split at h
          · exact absurd h (by simp)
          · next hne =>
            split at h
            · exact absurd h (by simp)
            · cases h
              exact hne

/-- Witness for C7's amended theorem: with the target prompted, a
proceeding run has distinct names. -/
theorem claim7_migrate_reject_amended_witness :
    jsFalsy none = true ∧
    migrateResolveAccounts
      { accounts :=
          [("personal", ⟨"pu", "pn", "pe", "github.com-personal", none⟩),
           ("work", ⟨"wu", "wn", "we", "github.com-work", none⟩)],
        defaultAccount := "personal" }
      (some "work") none "p" "q" =
      ResolveOutcome.proceed "work" "personal" ∧
    "work" ≠ "personal" :=
  ⟨by decide, by decide,
   claim7_migrate_reject_amended
     { accounts :=
         [("personal", ⟨"pu", "pn", "pe", "github.com-personal", none⟩),
          ("work", ⟨"wu", "wn", "we", "github.com-work", none⟩)],
       defaultAccount := "personal" }
     (some "work") none "p" "q" "work" "personal" (by decide) (by decide)⟩

theorem splitHostBlocks_ne_nil (l : List Char) : splitHostBlocks l ≠ [] := by
  cases l with
  | nil => simp [splitHostBlocks]
  | cons c rest =>
    rw [splitHostBlocks]
    by_cases hb : c = '\n' ∧ isHostStart rest = true
    · simp [hb]
    · simp only [hb, if_false]
      cases h : splitHostBlocks rest <;> simp

theorem joinBlocks_splitHostBlocks (l : List Char) :
    joinBlocks (splitHostBlocks l) = l := by
  induction l with
  | nil => rfl
  | cons c rest ih =>
    cases hsplit : splitHostBlocks rest with
    | nil => exact absurd hsplit (splitHostBlocks_ne_nil rest)
    | cons b bs =>
      rw [hsplit] at ih
      rw [splitHostBlocks]
      by_cases hb : c = '\n' ∧ isHostStart rest = true
      · rw [if_pos hb, hsplit]
        show ([] : List Char) ++ '\n' :: joinBlocks (b :: bs) = c :: rest
        rw [List.nil_append, ih, hb.1]
      · rw [if_neg hb, hsplit]
        cases bs with
        | nil =>
          show c :: b = c :: rest
          rw [show b = rest from ih]
        | cons b₂ bs₂ =>
          show (c :: b) ++ '\n' :: joinBlocks (b₂ :: bs₂) = c :: rest
          rw [List.cons_append]
          have hjoin : b ++ '\n' :: joinBlocks (b₂ :: bs₂) = rest := ih
          rw [hjoin]

theorem setKey_mem (m : List (String × String)) (k' v' k v : String)
    (h : (k, v) ∈ setKey m k' v') :
    (k = k' ∧ v = v') ∨ (k, v) ∈ m := by
  rw [setKey] at h
  by_cases hc : m.any (fun p => p.1 = k') = true
  · rw [if_pos hc] at h
    obtain ⟨p, hp, hpe⟩ := List.mem_map.mp h
    by_cases hpk : p.1 = k'
    · rw [if_pos hpk] at hpe
      have := Prod.mk.injEq .. ▸ hpe
      exact Or.inl ⟨this.1.symm, this.2.symm⟩
    · rw [if_neg hpk] at hpe
      exact Or.inr (hpe ▸ hp)
  · rw [if_neg hc] at h
    rcases List.mem_append.mp h with hm | hnew
    · exact Or.inr hm
    · have := Prod.mk.injEq .. ▸ List.mem_singleton.mp hnew
      exact Or.inl ⟨this.1, this.2⟩

theorem collectHosts_mem (blocks : List (List Char))
    (m : List (String × String)) (k v : String)
    (h : (k, v) ∈ blocks.foldl
      (fun m block =>
        match hostAlias block with
        | some k' => setKey m k' (String.mk block)
        | none => m) m) :
    (∃ b ∈ blocks, v.data = b ∧ hostAlias b = some k) ∨ (k, v) ∈ m := by
  induction blocks generalizing m with
  | nil => exact Or.inr h
  | cons b bs ih =>
    rw [List.foldl_cons] at h
    rcases ih _ h with ⟨b', hb', heq, ha⟩ | hmem
    · exact Or.inl ⟨b', List.mem_cons_of_mem _ hb', heq, ha⟩
    · cases hab : hostAlias b with
      | none =>
        rw [hab] at hmem
        exact Or.inr hmem
      | some k' =>
        rw [hab] at hmem
        rcases setKey_mem _ _ _ _ _ hmem with ⟨hk, hv⟩ | hold
        · subst hk
          subst hv
          exact Or.inl ⟨b, List.mem_cons_self .., rfl, hab⟩
        · exact Or.inr hold

theorem parseSshConfig_mem (config : String) (k v : String)
    (h : (k, v) ∈ parseSshConfig config) :
    v.data ∈ splitHostBlocks config.data ∧ hostAlias v.data = some k := by
  rw [parseSshConfig] at h
  by_cases hc : config = ""
  · rw [if_pos hc] at h
    exact absurd h (by simp)
  · rw [if_neg hc] at h
    rcases collectHosts_mem _ _ _ _ h with ⟨b, hb, heq, ha⟩ | hmem
    · exact ⟨heq ▸ hb, heq ▸ ha⟩
    · exact absurd hmem (by simp)

/-- C8 counterexample: the claim (and spec) say an indented `Host` line
also starts a new block, but the split regex `\n(?=Host\s+)` requires
`Host` immediately after the newline — on `"Host a\n  Host b"` the code
yields a single block keyed `a` and no key `b`, while the
spec-as-worded mapping has key `b`. -/
theorem claim8_parseSshConfig_counterexample :
    (parseSshConfig "Host a\n  Host b").lookup "b" = none ∧
    (parseHostBlocksSpec "Host a\n  Host b").lookup "b" =
      some "  Host b" ∧
    parseSshConfig "Host a\n  Host b" = [("a", "Host a\n  Host b")] := by
  decide

/-- C8 amended: `parseSshConfig` splits at each newline immediately
followed by `Host` and whitespace (no intervening whitespace, so an
indented `Host` line does not start a new block); rejoining the split
blocks with the consumed newlines reconstructs the input, and every map
entry is an alias of one of the split blocks pointing at its raw block
text. -/
theorem claim8_parseSshConfig_amended :
    (∀ l : List Char, joinBlocks (splitHostBlocks l) = l) ∧
    (∀ config k v : String, (k, v) ∈ parseSshConfig config →
      v.data ∈ splitHostBlocks config.data ∧ hostAlias v.data = some k) ∧
    parseSshConfig "Host a\n  Host b" = [("a", "Host a\n  Host b")] ∧
    parseSshConfig "Host a\nHost b" = [("a", "Host a"), ("b", "Host b")] :=
  ⟨joinBlocks_splitHostBlocks,
   fun config k v h => parseSshConfig_mem config k v h,
   by decide, by decide⟩

/-- Witness for C8's membership part at a concrete one-block config. -/
theorem claim8_parseSshConfig_amended_witness :
    "Host a".data ∈ splitHostBlocks "Host a".data ∧
    hostAlias "Host a".data = some "a" :=
  claim8_parseSshConfig_amended.2.1 "Host a" "a" "Host a" (by decide)

theorem isPrefixOf_self_append (l t : List Char) :
    l.isPrefixOf (l ++ t) = true := by
  induction l with
  | nil => simp [List.isPrefixOf]
  | cons c cs ih => simp [List.isPrefixOf, ih]

theorem removeFirst_self_append (needle t : List Char) (h : needle ≠ []) :
    removeFirst needle (needle ++ t) = t := by
  cases needle with
  | nil => exact absurd rfl h
  | cons n ns =>
    have hp : (n :: ns).isPrefixOf (n :: (ns ++ t)) = true :=
      isPrefixOf_self_append (n :: ns) t
    calc removeFirst (n :: ns) ((n :: ns) ++ t)
        = removeFirst (n :: ns) (n :: (ns ++ t)) := rfl
      _ = t := by
          rw [removeFirst, if_pos hp]
          exact List.drop_left (n :: ns) t

theorem removeFirst_no_occurrence (needle l : List Char)
    (h : hasSubstr needle l = false) : removeFirst needle l = l := by
  induction l with
  | nil => rfl
  | cons c rest ih =>
    rw [hasSubstr, Bool.or_eq_false_iff] at h
    rw [removeFirst, if_neg (by simp [h.1])]
    rw [ih h.2]

/-- C9 counterexample: the claim says an occurrence of `github.com-`
that is not a prefix is not removed, but `String.replace` with a string
pattern removes the first occurrence anywhere — `x-github.com-y` maps to
`id_rsa_x-y`, not `id_rsa_x-github.com-y`. -/
theorem claim9_getSshKeyPath_counterexample :
    getSshKeyPath "/home/u" "x-github.com-y" =
      "/home/u/.ssh/id_rsa_x-y" ∧
    getSshKeyPath "/home/u" "x-github.com-y" ≠
      "/home/u/.ssh/id_rsa_x-github.com-y" := by
  decide

/-- C9 amended: `keyPath` joins the SSH directory with `id_rsa_` and the
alias with its first occurrence of `github.com-` removed wherever it
stands: a leading occurrence is stripped, an alias with no occurrence is
unchanged, and a non-prefix occurrence is removed as well. -/
theorem claim9_getSshKeyPath_amended :
    (∀ home tail : String,
      getSshKeyPath home ("github.com-" ++ tail) =
        home ++ "/.ssh/" ++ ("id_rsa_" ++ tail)) ∧
    (∀ home a : String, hasSubstr "github.com-".data a.data = false →
      getSshKeyPath home a = home ++ "/.ssh/" ++ ("id_rsa_" ++ a)) ∧
    (∀ home tail : String,
      getSshKeyPath home ("x-" ++ "github.com-" ++ tail) =
        home ++ "/.ssh/" ++ ("id_rsa_" ++ ("x-" ++ tail))) := by
  refine ⟨?_, ?_, ?_⟩
  · intro home tail
    show home ++ "/.ssh/" ++
      ("id_rsa_" ++ String.mk (removeFirst "github.com-".data
        ("github.com-" ++ tail).data)) = _
    rw [show ("github.com-" ++ tail).data =
        "github.com-".data ++ tail.data from rfl,
      removeFirst_self_append _ _ (by decide)]
  · intro home a ha
    show home ++ "/.ssh/" ++
      ("id_rsa_" ++ String.mk (removeFirst "github.com-".data a.data)) = _
    rw [removeFirst_no_occurrence _ _ ha]
  · intro home tail
    show home ++ "/.ssh/" ++
      ("id_rsa_" ++ String.mk (removeFirst "github.com-".data
        ("x-" ++ "github.com-" ++ tail).data)) = _
    rw [show ("x-" ++ "github.com-" ++ tail).data =
        'x' :: '-' :: ("github.com-".data ++ tail.data) from rfl]
    rw [removeFirst, if_neg (by simp [List.isPrefixOf])]
    rw [removeFirst, if_neg (by simp [List.isPrefixOf])]
    rw [removeFirst_self_append _ _ (by decide)]
    rfl

/-- Witness for C9's amended theorem at concrete aliases. -/
theorem claim9_getSshKeyPath_amended_witness :
    getSshKeyPath "/h" ("github.com-" ++ "work") =
      "/h" ++ "/.ssh/" ++ ("id_rsa_" ++ "work") ∧
    getSshKeyPath "/h" "plain" =
      "/h" ++ "/.ssh/" ++ ("id_rsa_" ++ "plain") :=
  ⟨claim9_getSshKeyPath_amended.1 "/h" "work",
   claim9_getSshKeyPath_amended.2.1 "/h" "plain" (by decide)⟩

end GitAccountManager
